import Mathlib

set_option maxHeartbeats 1000000

/-!
# Verification of the effect-programming chatbot core

Shallow embedding of the repository's core (`handleWs.ts` and the dialog
script): the blocking `Channel`, the effect-driver loop of `handleWs`, and
the generator scripts `dialog` / `sumSubDialog`.  Definitions mirror the
source; theorems settle the specification's claims about them.
-/

/-! ## The blocking channel

The source class holds two arrays: `takers` (stored promise resolvers) and
`buffer` (unconsumed messages).  A resolver is represented here by the
arrival index that `take` assigned to it; `nextTakerId` is the next such
index, and `resolved` logs, in call order, each resolver invocation
`(takerId, payload)` performed by `callTakers`.
-/

@[ext]
structure Channel where
  takers : List Nat
  buffer : List String
  nextTakerId : Nat
  resolved : List (Nat × String)
  deriving DecidableEq

/-- The matching loop inside `Channel.callTakers`: while both `takers` and
`buffer` are nonempty, shift one taker and one payload and call the taker
with the payload (logged by appending to the accumulator). -/
def callTakersAux : List Nat → List String → List (Nat × String) →
    List Nat × List String × List (Nat × String)
  | t :: ts, p :: ps, acc => callTakersAux ts ps (acc ++ [(t, p)])
  | ts, ps, acc => (ts, ps, acc)

def Channel.callTakers (s : Channel) : Channel :=
  let r := callTakersAux s.takers s.buffer s.resolved
  { takers := r.1, buffer := r.2.1, nextTakerId := s.nextTakerId,
    resolved := r.2.2 }

/-- `take()`: push a fresh resolver onto `takers`, then run the matching
loop.  (The promise handed back to the caller is the one the fresh resolver
completes; its eventual value is recorded in `resolved`.) -/
def Channel.take (s : Channel) : Channel :=
  Channel.callTakers
    { s with takers := s.takers ++ [s.nextTakerId],
             nextTakerId := s.nextTakerId + 1 }

/-- `put(message)`: push the message onto `buffer`, then run the matching
loop. -/
def Channel.put (m : String) (s : Channel) : Channel :=
  Channel.callTakers { s with buffer := s.buffer ++ [m] }

/-- One event observed on the socket: either a text frame or anything
else (close/binary/ping frames, which `listen` ignores). -/
inductive SockEvent
  | text (s : String)
  | nonText
  deriving DecidableEq

/-- `listen(sock)`: `put` every text event emitted by the socket, in order,
ignoring non-text events. -/
def Channel.listen (s : Channel) (events : List SockEvent) : Channel :=
  events.foldl
    (fun t e =>
      match e with
      | SockEvent.text m => Channel.put m t
      | SockEvent.nonText => t)
    s

/-- An externally invoked channel operation. -/
inductive ChanOp
  | take
  | put (m : String)
  deriving DecidableEq

/-- A freshly constructed channel. -/
def chanInit : Channel := ⟨[], [], 0, []⟩

def chanStep (s : Channel) : ChanOp → Channel
  | ChanOp.take => Channel.take s
  | ChanOp.put m => Channel.put m s

/-- The channel state after an interleaved sequence of `put`/`take` calls
on a fresh channel. -/
def chanRun (ops : List ChanOp) : Channel := ops.foldl chanStep chanInit

/-- The payloads passed to `put`, in call order. -/
def putsOf : List ChanOp → List String
  | [] => []
  | ChanOp.take :: rest => putsOf rest
  | ChanOp.put m :: rest => m :: putsOf rest

/-- The number of `take` calls made. -/
def takesOf : List ChanOp → Nat
  | [] => 0
  | ChanOp.take :: rest => takesOf rest + 1
  | ChanOp.put _ :: rest => takesOf rest

/-- Closed form of the channel state reached from `chanInit` by a sequence
of operations: with `n` takes and puts `ps`, the first
`min n ps.length` take-requests have been resolved with the first
`min n ps.length` put payloads, pairwise in order, and the unmatched side
remains queued. -/
def chanSpec (ops : List ChanOp) : Channel :=
  { takers := (List.range (takesOf ops)).drop
      (min (takesOf ops) (putsOf ops).length),
    buffer := (putsOf ops).drop (min (takesOf ops) (putsOf ops).length),
    nextTakerId := takesOf ops,
    resolved := (List.range (min (takesOf ops) (putsOf ops).length)).zip
      ((putsOf ops).take (min (takesOf ops) (putsOf ops).length)) }

/-! ## Effects and the dialog script -/

/-- An effect object `{ type: string, ... }`.  The script only ever builds
effects through `say` (which carries a `text` payload) and `listen` (which
carries none; the `text` field then keeps its default). -/
structure Effect where
  type : String
  text : String := ""
  deriving DecidableEq

def say (text : String) : Effect := { type := "say", text := text }

def listen : Effect := { type := "listen" }

/-- JS whitespace stripped by `Number(string)` conversion (the forms the
script can meet). -/
def isJsSpace (c : Char) : Bool :=
  c = ' ' || c = '\t' || c = '\n' || c = '\r'

def trimChars (l : List Char) : List Char :=
  ((l.dropWhile isJsSpace).reverse.dropWhile isJsSpace).reverse

def digitVal (c : Char) : Nat := c.toNat - 48

def allDigits (l : List Char) : Bool :=
  l.all fun c => decide ('0' ≤ c) && decide (c ≤ '9')

def parseDigits (l : List Char) : Option Int :=
  if !l.isEmpty && allDigits l then
    some (Int.ofNat (l.foldl (fun a c => a * 10 + digitVal c) 0))
  else none

/-- Modelled JS `Number(string)` conversion; `none` plays NaN.  Restricted
to the fragment the script exercises: the empty / whitespace-only string
converts to `0`, an optionally signed decimal-integer string converts to
its value, and any other string is NaN.  (Fractional, exponent, hex and
`Infinity` forms, which no claim exercises, are treated as NaN.) -/
def jsNumber (s : String) : Option Int :=
  match trimChars s.data with
  | [] => some 0
  | '+' :: ds => parseDigits ds
  | '-' :: ds => (parseDigits ds).map (fun n => -n)
  | ds => parseDigits ds

def startsWithChars : List Char → List Char → Bool
  | [], _ => true
  | _ :: _, [] => false
  | c :: cs, h :: hs => c = h && startsWithChars cs hs

/-- `hay.includes(needle)` on character lists. -/
def containsChars (needle : List Char) : List Char → Bool
  | [] => needle.isEmpty
  | h :: hs => startsWithChars needle (h :: hs) || containsChars needle hs

/-- `toLowerCase()` on the character list (ASCII case folding, which covers
every string the claims exercise). -/
def toLowerChars (l : List Char) : List Char := l.map Char.toLower

/-- `message.toLowerCase().includes("time")`. -/
def hasTime (m : String) : Bool := containsChars "time".data (toLowerChars m.data)

/-- `message.toLowerCase().includes("sum")`. -/
def hasSum (m : String) : Bool := containsChars "sum".data (toLowerChars m.data)

/-- The loop body of `sumSubDialog` from a just-received `message` with
accumulator `r`: numeric messages are accumulated and answered with
`say "Got it!"` then `listen` (consuming the next available input); the
first NaN message ends the loop and the total is reported.  Returns the
emitted effects together with the inputs left for the caller (`none` when
the available inputs ran out at a `listen`). -/
def sumBody (r : Int) (message : String) (inputs : List String) :
    List Effect × Option (List String) :=
  match jsNumber message with
  | none => ([say ("The result is: " ++ toString r)], some inputs)
  | some n =>
    match inputs with
    | [] => ([say "Got it!", listen], none)
    | m :: rest =>
      let p := sumBody (r + n) m rest
      (say "Got it!" :: listen :: p.1, p.2)

/-- `sumSubDialog()` run against the available inputs: announce, `listen`
for the first message, then enter the accumulation loop. -/
def sumSub : List String → List Effect × Option (List String)
  | [] => ([say "Okay, what numbers should we sum?", listen], none)
  | m :: rest =>
    let p := sumBody 0 m rest
    (say "Okay, what numbers should we sum?" :: listen :: p.1, p.2)

/-- The outer `while (true)` loop of `dialog()`, run against the available
inputs.  `clock` is the ambient wall clock: `clock tq` is the string
`format(new Date(), "HH:mm:ss")` produced by the `tq`-th time query of the
run.  One unit of fuel is spent per outer-loop iteration; `dialogRun`
supplies enough fuel that the trace is never truncated. -/
def dialogLoopF (clock : Nat → String) : Nat → Nat → List String → List Effect
  | 0, _, _ => []
  | fuel + 1, tq, inputs =>
    match inputs with
    | [] => [listen]
    | m :: rest =>
      if hasTime m then
        listen :: say ("It is " ++ clock tq) :: dialogLoopF clock fuel (tq + 1) rest
      else if hasSum m then
        let p := sumSub rest
        listen ::
          (p.1 ++
            match p.2 with
            | none => []
            | some rest2 => dialogLoopF clock fuel tq rest2)
      else
        listen :: say "I don\x27t know what to say!" ::
          dialogLoopF clock fuel tq rest

/-- `dialog()` run against a finite list of inputs fed, in order, at its
`listen` suspension points: the welcome message followed by the outer
loop.  The trace ends where the script suspends on a `listen` with no
input left. -/
def dialogRun (clock : Nat → String) (inputs : List String) : List Effect :=
  say "Welcome to \"Do what I say BOT\"" ::
    dialogLoopF clock (inputs.length + 1) 0 inputs

/-- The `say "Got it!"`-then-`listen` pairs emitted for `k` accepted
numeric inputs. -/
def gotIts : Nat → List Effect
  | 0 => []
  | k + 1 => say "Got it!" :: listen :: gotIts k

/-- The values of the longest numeric prefix of a message list, under the
JS `Number` conversion. -/
def numericVals : List String → List Int
  | [] => []
  | m :: rest =>
    match jsNumber m with
    | some n => n :: numericVals rest
    | none => []

/-! ## The effect driver (`handleWs`)

The driver is modelled over an arbitrary resumable script: a step function
from a script state and the fed-back string to `{ value, done }` plus the
next script state.  Transport sends may fail (`sendOk k` is the outcome of
the `k`-th send; a failed send throws and the exception propagates out of
the loop, which has no handler).  The channel is seen by the driver as the
queue of messages its `take()` calls will receive, in order.
-/

structure GenRet (σ : Type) where
  value : Option Effect
  done : Bool
  state : σ

/-- What the driver did while interpreting effects, in order. -/
inductive DriverEvent
  | sent (text : String)
  | sendFailed (text : String)
  | took (m : String)
  deriving DecidableEq

/-- How a driver run ended. -/
inductive Outcome
  | completed
  | sendError
  | starved
  | outOfFuel
  deriving DecidableEq

/-- The driver-visible state: the fed-back value `current`, the number of
sends attempted so far, and the messages the channel will deliver. -/
structure DrvState where
  current : String
  sentCount : Nat
  chan : List String
  deriving DecidableEq

/-- One interpretation of an effect: the `switch (effect.type)` body.
Returns the events performed and either the driver state for the next
cycle or the outcome that aborts the loop (a send that threw, or a
`take()` that will never resolve). -/
def interpret (sendOk : Nat → Bool) (e : Effect) (d : DrvState) :
    List DriverEvent × Except Outcome DrvState :=
  if e.type = "say" then
    if sendOk d.sentCount then
      ([DriverEvent.sent e.text],
        Except.ok { d with sentCount := d.sentCount + 1 })
    else
      ([DriverEvent.sendFailed e.text], Except.error Outcome.sendError)
  else if e.type = "listen" then
    match d.chan with
    | [] => ([], Except.error Outcome.starved)
    | m :: rest => ([DriverEvent.took m], Except.ok ⟨m, d.sentCount, rest⟩)
  else ([], Except.ok d)

/-- The outcome of the loop when it stops right after one interpretation. -/
def afterInterp : Except Outcome DrvState → Outcome
  | Except.error o => o
  | Except.ok _ => Outcome.completed

/-- The `while (true)` loop of `handleWs`: advance the script with
`current`, break if no effect was produced, interpret the effect, break if
the script signalled completion.  Fuel bounds the number of iterations
modelled; running out yields `Outcome.outOfFuel`. -/
def drive {σ : Type} (g : σ → String → GenRet σ) (sendOk : Nat → Bool) :
    Nat → σ → DrvState → List DriverEvent × Outcome
  | 0, _, _ => ([], Outcome.outOfFuel)
  | fuel + 1, st, d =>
    let r := g st d.current
    match r.value with
    | none => ([], Outcome.completed)
    | some e =>
      match interpret sendOk e d with
      | (evs, Except.error o) => (evs, o)
      | (evs, Except.ok d2) =>
        if r.done then (evs, Outcome.completed)
        else
          let rest := drive g sendOk fuel r.state d2
          (evs ++ rest.1, rest.2)

/-! ## Helper lemmas about the channel -/

theorem callTakersAux_nil_left (ps : List String) (acc : List (Nat × String)) :
    callTakersAux [] ps acc = ([], ps, acc) := by
  cases ps <;> rfl

theorem callTakersAux_nil_right (ts : List Nat) (acc : List (Nat × String)) :
    callTakersAux ts [] acc = (ts, [], acc) := by
  cases ts <;> rfl

theorem callTakersAux_cons (t : Nat) (ts : List Nat) (p : String)
    (ps : List String) (acc : List (Nat × String)) :
    callTakersAux (t :: ts) (p :: ps) acc = callTakersAux ts ps (acc ++ [(t, p)]) :=
  rfl

theorem putsOf_append (l₁ l₂ : List ChanOp) :
    putsOf (l₁ ++ l₂) = putsOf l₁ ++ putsOf l₂ := by
  induction l₁ with
  | nil => rfl
  | cons op rest ih => cases op <;> simp [putsOf, ih]

theorem takesOf_append (l₁ l₂ : List ChanOp) :
    takesOf (l₁ ++ l₂) = takesOf l₁ + takesOf l₂ := by
  induction l₁ with
  | nil => simp [takesOf]
  | cons op rest ih =>
    cases op with
    | take => simp [takesOf, ih]; omega
    | put m => simp [takesOf, ih]

theorem range_drop_self (n : Nat) : (List.range n).drop n = [] :=
  List.drop_eq_nil_of_le (by simp)

/-- The closed form `chanSpec` is exactly what running the operations on a
fresh channel produces. -/
theorem chanRun_eq_chanSpec (ops : List ChanOp) : chanRun ops = chanSpec ops := by
  induction ops using List.reverseRecOn with
  | nil => rfl
  | append_singleton ops op ih =>
    have hstep : chanRun (ops ++ [op]) = chanStep (chanRun ops) op := by
      simp [chanRun, List.foldl_append]
    rw [hstep, ih]
    cases op with
    | put m =>
      have hts : takesOf (ops ++ [ChanOp.put m]) = takesOf ops := by
        simp [takesOf_append, takesOf]
      have hps : putsOf (ops ++ [ChanOp.put m]) = putsOf ops ++ [m] := by
        simp [putsOf_append, putsOf]
      rcases le_or_lt (takesOf ops) (putsOf ops).length with h | h
      · -- every taker already matched: the takers queue is empty
        have hk : min (takesOf ops) (putsOf ops).length = takesOf ops :=
          Nat.min_eq_left h
        have hk2 : min (takesOf ops) (putsOf ops ++ [m]).length = takesOf ops := by
          simp; omega
        have hL : chanStep (chanSpec ops) (ChanOp.put m) =
            ⟨[], (putsOf ops).drop (takesOf ops) ++ [m], takesOf ops,
              (List.range (takesOf ops)).zip ((putsOf ops).take (takesOf ops))⟩ := by
          simp only [chanStep, Channel.put, Channel.callTakers, chanSpec, hk,
            range_drop_self, callTakersAux_nil_left]
        have hR : chanSpec (ops ++ [ChanOp.put m]) =
            ⟨[], (putsOf ops ++ [m]).drop (takesOf ops), takesOf ops,
              (List.range (takesOf ops)).zip ((putsOf ops ++ [m]).take (takesOf ops))⟩ := by
          simp only [chanSpec, hts, hps, hk2, range_drop_self]
        rw [hL, hR, List.drop_append_of_le_length h, List.take_append_of_le_length h]
      · -- buffer side exhausted: the new message resolves the oldest taker
        have hk : min (takesOf ops) (putsOf ops).length = (putsOf ops).length :=
          Nat.min_eq_right (Nat.le_of_lt h)
        have hk2 : min (takesOf ops) (putsOf ops ++ [m]).length
            = (putsOf ops).length + 1 := by
          simp; omega
        have hbuf : (putsOf ops).drop (putsOf ops).length = [] :=
          List.drop_length _
        have hcons : (List.range (takesOf ops)).drop (putsOf ops).length
            = (putsOf ops).length ::
              (List.range (takesOf ops)).drop ((putsOf ops).length + 1) := by
          rw [List.drop_eq_getElem_cons (by simpa using h)]
          simp
        have hL : chanStep (chanSpec ops) (ChanOp.put m) =
            ⟨(List.range (takesOf ops)).drop ((putsOf ops).length + 1), [], takesOf ops,
              (List.range (putsOf ops).length).zip
                ((putsOf ops).take (putsOf ops).length) ++ [((putsOf ops).length, m)]⟩ := by
          simp only [chanStep, Channel.put, Channel.callTakers, chanSpec, hk, hbuf,
            hcons, List.nil_append, callTakersAux_cons, callTakersAux_nil_right]
        have htake : (putsOf ops ++ [m]).take ((putsOf ops).length + 1)
            = putsOf ops ++ [m] :=
          List.take_of_length_le (by simp)
        have hzip : (List.range ((putsOf ops).length + 1)).zip (putsOf ops ++ [m])
            = (List.range (putsOf ops).length).zip ((putsOf ops).take (putsOf ops).length)
              ++ [((putsOf ops).length, m)] := by
          rw [List.range_succ, List.zip_append (by simp), List.take_length]
          rfl
        have hR : chanSpec (ops ++ [ChanOp.put m]) =
            ⟨(List.range (takesOf ops)).drop ((putsOf ops).length + 1), [], takesOf ops,
              (List.range (putsOf ops).length).zip
                ((putsOf ops).take (putsOf ops).length) ++ [((putsOf ops).length, m)]⟩ := by
          simp only [chanSpec, hts, hps, hk2, htake, hzip]
          refine Channel.ext rfl ?_ rfl rfl
          simp
        rw [hL, hR]
    | take =>
      have hts : takesOf (ops ++ [ChanOp.take]) = takesOf ops + 1 := by
        simp [takesOf_append, takesOf]
      have hps : putsOf (ops ++ [ChanOp.take]) = putsOf ops := by
        simp [putsOf_append, putsOf]
      rcases le_or_lt (putsOf ops).length (takesOf ops) with h | h
      · -- buffer empty: the new taker queues up
        have hk : min (takesOf ops) (putsOf ops).length = (putsOf ops).length :=
          Nat.min_eq_right h
        have hk2 : min (takesOf ops + 1) (putsOf ops).length = (putsOf ops).length := by
          omega
        have hbuf : (putsOf ops).drop (putsOf ops).length = [] :=
          List.drop_length _
        have hL : chanStep (chanSpec ops) ChanOp.take =
            ⟨(List.range (takesOf ops)).drop (putsOf ops).length ++ [takesOf ops], [],
              takesOf ops + 1,
              (List.range (putsOf ops).length).zip
                ((putsOf ops).take (putsOf ops).length)⟩ := by
          simp only [chanStep, Channel.take, Channel.callTakers, chanSpec, hk, hbuf,
            callTakersAux_nil_right]
        have hdrop : (List.range (takesOf ops + 1)).drop (putsOf ops).length
            = (List.range (takesOf ops)).drop (putsOf ops).length ++ [takesOf ops] := by
          rw [List.range_succ, List.drop_append_of_le_length (by simp; omega)]
        have hR : chanSpec (ops ++ [ChanOp.take]) =
            ⟨(List.range (takesOf ops)).drop (putsOf ops).length ++ [takesOf ops], [],
              takesOf ops + 1,
              (List.range (putsOf ops).length).zip
                ((putsOf ops).take (putsOf ops).length)⟩ := by
          simp only [chanSpec, hts, hps, hk2, hdrop, hbuf]
        rw [hL, hR]
      · -- a buffered message resolves the new taker at once
        have hk : min (takesOf ops) (putsOf ops).length = takesOf ops :=
          Nat.min_eq_left (Nat.le_of_lt h)
        have hk2 : min (takesOf ops + 1) (putsOf ops).length = takesOf ops + 1 := by
          omega
        have hbufcons : (putsOf ops).drop (takesOf ops)
            = (putsOf ops).get ⟨takesOf ops, h⟩ :: (putsOf ops).drop (takesOf ops + 1) :=
          List.drop_eq_getElem_cons h
        have hL : chanStep (chanSpec ops) ChanOp.take =
            ⟨[], (putsOf ops).drop (takesOf ops + 1), takesOf ops + 1,
              (List.range (takesOf ops)).zip ((putsOf ops).take (takesOf ops))
                ++ [(takesOf ops, (putsOf ops).get ⟨takesOf ops, h⟩)]⟩ := by
          simp only [chanStep, Channel.take, Channel.callTakers, chanSpec, hk,
            range_drop_self, List.nil_append, hbufcons, callTakersAux_cons,
            callTakersAux_nil_left]
        have htake : (putsOf ops).take (takesOf ops + 1)
            = (putsOf ops).take (takesOf ops) ++ [(putsOf ops).get ⟨takesOf ops, h⟩] := by
          rw [List.take_succ, List.getElem?_eq_getElem h]
          rfl
        have hzip : (List.range (takesOf ops + 1)).zip ((putsOf ops).take (takesOf ops + 1))
            = (List.range (takesOf ops)).zip ((putsOf ops).take (takesOf ops))
              ++ [(takesOf ops, (putsOf ops).get ⟨takesOf ops, h⟩)] := by
          rw [List.range_succ, htake, List.zip_append (by simp; omega)]
          rfl
        have hR : chanSpec (ops ++ [ChanOp.take]) =
            ⟨[], (putsOf ops).drop (takesOf ops + 1), takesOf ops + 1,
              (List.range (takesOf ops)).zip ((putsOf ops).take (takesOf ops))
                ++ [(takesOf ops, (putsOf ops).get ⟨takesOf ops, h⟩)]⟩ := by
          simp only [chanSpec, hts, hps, hk2, hzip]
          refine Channel.ext ?_ rfl rfl rfl
          rw [List.range_succ]
          exact List.drop_eq_nil_of_le (by simp)
        rw [hL, hR]

theorem callTakersAux_drained (ts : List Nat) (ps : List String)
    (acc : List (Nat × String)) :
    (callTakersAux ts ps acc).1 = [] ∨ (callTakersAux ts ps acc).2.1 = [] := by
  induction ts generalizing ps acc with
  | nil => rw [callTakersAux_nil_left]; left; rfl
  | cons t ts ih =>
    cases ps with
    | nil => rw [callTakersAux_nil_right]; right; rfl
    | cons p ps => rw [callTakersAux_cons]; exact ih ps _

/-- The matching loop always empties at least one side. -/
theorem callTakers_drained (s : Channel) :
    (Channel.callTakers s).takers = [] ∨ (Channel.callTakers s).buffer = [] :=
  callTakersAux_drained s.takers s.buffer s.resolved

theorem not_both_ne (s : Channel) (h : s.takers = [] ∨ s.buffer = []) :
    ¬(s.takers ≠ [] ∧ s.buffer ≠ []) := by tauto

theorem chanStep_drained (s : Channel) (op : ChanOp) :
    (chanStep s op).takers = [] ∨ (chanStep s op).buffer = [] := by
  cases op with
  | take => exact callTakers_drained _
  | put m => exact callTakers_drained _

/-- The `resolved` log of a run: its length, taker components and payload
components in closed form. -/
theorem resolved_spec_parts (ops : List ChanOp) :
    ((chanRun ops).resolved).length = min (takesOf ops) (putsOf ops).length
    ∧ ((chanRun ops).resolved).map Prod.fst
        = List.range (min (takesOf ops) (putsOf ops).length)
    ∧ ((chanRun ops).resolved).map Prod.snd
        = (putsOf ops).take (min (takesOf ops) (putsOf ops).length) := by
  rw [chanRun_eq_chanSpec]
  refine ⟨?_, ?_, ?_⟩
  · show ((List.range (min (takesOf ops) (putsOf ops).length)).zip
      ((putsOf ops).take (min (takesOf ops) (putsOf ops).length))).length = _
    simp
  · exact List.map_fst_zip _ _ (by simp)
  · exact List.map_snd_zip _ _ (by simp)

theorem mem_range_drop {n k t : Nat} (ht : t ∈ (List.range n).drop k) : k ≤ t := by
  obtain ⟨i, hi, hg⟩ := List.mem_iff_getElem.1 ht
  have hkin : ((List.range n).drop k)[i] = k + i := by
    rw [List.getElem_drop]
    exact List.getElem_range _ _
  rw [hkin] at hg
  omega

/-! ## The claims -/

/-- Claim C1: channel FIFO property.  For every sequence of interleaved
`put`/`take` calls on one channel, the values handed to `take()` callers,
in resolution order, are exactly an initial segment of the values passed to
`put`, in order (the Kth resolved value is the Kth put value); and the
taker indices resolved, in resolution order, are `0, 1, 2, ...` — pending
`take()` requests are resolved strictly in the order the calls were made. -/
theorem channel_fifo_order (ops : List ChanOp) :
    ((chanRun ops).resolved).map Prod.snd
        = (putsOf ops).take ((chanRun ops).resolved).length
    ∧ ((chanRun ops).resolved).map Prod.fst
        = List.range ((chanRun ops).resolved).length := by
  obtain ⟨h1, h2, h3⟩ := resolved_spec_parts ops
  rw [h1]
  exact ⟨h3, h2⟩

/-- Claim C2: no loss, no duplication.  The payloads resolved so far
followed by the still-buffered payloads reproduce the `put` history exactly
(every put value is delivered at most once and never dropped); no taker
index is resolved twice; and no pending taker has already been resolved. -/
theorem channel_no_loss_no_dup (ops : List ChanOp) :
    ((chanRun ops).resolved).map Prod.snd ++ (chanRun ops).buffer = putsOf ops
    ∧ (((chanRun ops).resolved).map Prod.fst).Nodup
    ∧ ∀ t ∈ (chanRun ops).takers, t ∉ ((chanRun ops).resolved).map Prod.fst := by
  obtain ⟨h1, h2, h3⟩ := resolved_spec_parts ops
  refine ⟨?_, ?_, ?_⟩
  · rw [h3, chanRun_eq_chanSpec]
    exact List.take_append_drop _ _
  · rw [h2]
    exact List.nodup_range _
  · intro t ht hmem
    rw [h2] at hmem
    rw [chanRun_eq_chanSpec] at ht
    have hge : min (takesOf ops) (putsOf ops).length ≤ t := mem_range_drop ht
    have hlt : t < min (takesOf ops) (putsOf ops).length := List.mem_range.1 hmem
    omega

/-- Claim C2 witness: in the run `[take]` the pending taker `0` has not
been resolved. -/
theorem channel_no_loss_no_dup_witness :
    (0 : Nat) ∉ ((chanRun [ChanOp.take]).resolved).map Prod.fst :=
  (channel_no_loss_no_dup [ChanOp.take]).2.2 0 (by decide)

/-- Claim C3: drain invariant.  After any single channel operation (a
`take`, a `put`, or the `put`s performed by `listen`) the takers queue and
the value buffer are never both non-empty; in particular every state
reachable from the empty channel satisfies the predicate, and `listen`
preserves it. -/
theorem channel_drain_invariant :
    (∀ (s : Channel) (op : ChanOp),
      ¬((chanStep s op).takers ≠ [] ∧ (chanStep s op).buffer ≠ []))
    ∧ (∀ ops : List ChanOp,
      ¬((chanRun ops).takers ≠ [] ∧ (chanRun ops).buffer ≠ []))
    ∧ (∀ (s : Channel) (events : List SockEvent),
      ¬(s.takers ≠ [] ∧ s.buffer ≠ []) →
      ¬((Channel.listen s events).takers ≠ [] ∧ (Channel.listen s events).buffer ≠ [])) := by
  have hstep : ∀ (s : Channel) (op : ChanOp),
      ¬((chanStep s op).takers ≠ [] ∧ (chanStep s op).buffer ≠ []) :=
    fun s op => not_both_ne _ (chanStep_drained s op)
  refine ⟨hstep, ?_, ?_⟩
  · intro ops
    rcases ops.eq_nil_or_concat with rfl | ⟨l, op, rfl⟩
    · simp [chanRun, chanInit]
    · rw [List.concat_eq_append]
      have h2 : chanRun (l ++ [op]) = chanStep (chanRun l) op := by
        simp [chanRun, List.foldl_append]
      rw [h2]
      exact hstep _ _
  · intro s events h
    induction events generalizing s with
    | nil => exact h
    | cons e evs ih =>
      have hl : Channel.listen s (e :: evs)
          = Channel.listen
              (match e with
                | SockEvent.text m => Channel.put m s
                | SockEvent.nonText => s) evs := by
        cases e <;> rfl
      rw [hl]
      cases e with
      | text m => exact ih _ (not_both_ne _ (callTakers_drained _))
      | nonText => exact ih _ h

/-- Claim C3 witness: a `listen` that puts one text frame into a fresh
channel leaves it drained. -/
theorem channel_drain_invariant_witness :
    ¬((Channel.listen chanInit [SockEvent.text "hello"]).takers ≠ []
      ∧ (Channel.listen chanInit [SockEvent.text "hello"]).buffer ≠ []) :=
  channel_drain_invariant.2.2 chanInit [SockEvent.text "hello"] (by decide)

/-! ## Helper lemmas about the script -/

theorem sumBody_none (r : Int) (msg : String) (ins : List String)
    (hj : jsNumber msg = none) :
    sumBody r msg ins = ([say ("The result is: " ++ toString r)], some ins) := by
  rw [sumBody.eq_def, hj]

theorem sumBody_some_nil (r : Int) (msg : String) (n : Int)
    (hj : jsNumber msg = some n) :
    sumBody r msg [] = ([say "Got it!", listen], none) := by
  rw [sumBody.eq_def, hj]

theorem sumBody_some_cons (r : Int) (msg : String) (n : Int) (m : String)
    (rest : List String) (hj : jsNumber msg = some n) :
    sumBody r msg (m :: rest)
      = (say "Got it!" :: listen :: (sumBody (r + n) m rest).1,
         (sumBody (r + n) m rest).2) := by
  rw [sumBody.eq_def, hj]

theorem sumBody_rest_subset :
    ∀ (ins : List String) (r : Int) (msg : String) (result : List String),
      (sumBody r msg ins).2 = some result → ∀ x ∈ result, x ∈ ins := by
  intro ins
  induction ins with
  | nil =>
    intro r msg result h
    cases hj : jsNumber msg with
    | none =>
      rw [sumBody_none r msg [] hj] at h
      simp at h
      simp [← h]
    | some n =>
      rw [sumBody_some_nil r msg n hj] at h
      simp at h
  | cons m rest ih =>
    intro r msg result h
    cases hj : jsNumber msg with
    | none =>
      rw [sumBody_none r msg (m :: rest) hj] at h
      simp at h
      simp [← h]
    | some n =>
      rw [sumBody_some_cons r msg n m rest hj] at h
      intro x hx
      exact List.mem_cons_of_mem _ (ih (r + n) m result h x hx)

theorem sumSub_rest_subset (ins result : List String)
    (h : (sumSub ins).2 = some result) : ∀ x ∈ result, x ∈ ins := by
  cases ins with
  | nil => simp [sumSub] at h
  | cons m rest =>
    intro x hx
    exact List.mem_cons_of_mem _
      (sumBody_rest_subset rest 0 m result (by simpa [sumSub] using h) x hx)

/-- Two runs of the outer loop differ at most in the payloads of the
`say` effects produced by the time branch: the effect kinds always agree,
and when no input mentions "time" the whole traces agree. -/
theorem dialogLoopF_clock (c1 c2 : Nat → String) :
    ∀ (fuel tq : Nat) (inputs : List String),
      ((dialogLoopF c1 fuel tq inputs).map Effect.type
          = (dialogLoopF c2 fuel tq inputs).map Effect.type)
      ∧ ((∀ m ∈ inputs, hasTime m = false) →
          dialogLoopF c1 fuel tq inputs = dialogLoopF c2 fuel tq inputs) := by
  intro fuel
  induction fuel with
  | zero => exact fun tq inputs => ⟨rfl, fun _ => rfl⟩
  | succ fuel ih =>
    intro tq inputs
    cases inputs with
    | nil => exact ⟨rfl, fun _ => rfl⟩
    | cons m rest =>
      by_cases ht : hasTime m = true
      · constructor
        · simp only [dialogLoopF, ht, if_true, List.map_cons]
          rw [(ih (tq + 1) rest).1]
          rfl
        · intro hno
          have := hno m (List.mem_cons_self m rest)
          rw [ht] at this
          simp at this
      · by_cases hs : hasSum m = true
        · rcases hp : (sumSub rest).2 with _ | rest2
          · constructor
            · simp [dialogLoopF, ht, hs, hp]
            · intro _
              simp [dialogLoopF, ht, hs, hp]
          · constructor
            · simp only [dialogLoopF, ht, hs, if_false, if_true, Bool.false_eq_true,
                hp, List.map_cons, List.map_append]
              rw [(ih tq rest2).1]
            · intro hno
              have hno2 : ∀ x ∈ rest2, hasTime x = false := fun x hx =>
                hno x (List.mem_cons_of_mem _ (sumSub_rest_subset rest rest2 hp x hx))
              simp only [dialogLoopF, ht, hs, if_false, if_true, Bool.false_eq_true, hp]
              rw [(ih tq rest2).2 hno2]
        · constructor
          · simp only [dialogLoopF, ht, hs, if_false, Bool.false_eq_true, List.map_cons]
            rw [(ih tq rest).1]
          · intro hno
            have hno2 : ∀ x ∈ rest, hasTime x = false := fun x hx =>
              hno x (List.mem_cons_of_mem _ hx)
            simp only [dialogLoopF, ht, hs, if_false, Bool.false_eq_true]
            rw [(ih tq rest).2 hno2]

/-- The accumulation loop, whenever the fed messages do reach a
non-numeric one: it answers each accepted number with `Got it!`/`listen`
and finally reports the accumulator plus the sum of the numeric prefix. -/
theorem sumBody_total :
    ∀ (ins : List String) (r : Int) (msg : String),
      (∃ m ∈ msg :: ins, jsNumber m = none) →
      (sumBody r msg ins).1
        = gotIts (numericVals (msg :: ins)).length
          ++ [say ("The result is: " ++ toString (r + (numericVals (msg :: ins)).sum))] := by
  intro ins
  induction ins with
  | nil =>
    intro r msg hex
    cases hj : jsNumber msg with
    | none =>
      rw [sumBody_none r msg [] hj]
      simp [numericVals, hj, gotIts]
    | some n =>
      exfalso
      rcases hex with ⟨m, hm, hnone⟩
      simp at hm
      subst hm
      rw [hj] at hnone
      simp at hnone
  | cons m2 rest ih =>
    intro r msg hex
    cases hj : jsNumber msg with
    | none =>
      rw [sumBody_none r msg (m2 :: rest) hj]
      simp [numericVals, hj, gotIts]
    | some n =>
      have hex2 : ∃ m ∈ m2 :: rest, jsNumber m = none := by
        rcases hex with ⟨m, hm, hnone⟩
        rcases List.mem_cons.1 hm with rfl | hm2
        · rw [hj] at hnone; simp at hnone
        · exact ⟨m, hm2, hnone⟩
      have e1 : (sumBody r msg (m2 :: rest)).1
          = say "Got it!" :: listen :: (sumBody (r + n) m2 rest).1 := by
        rw [sumBody_some_cons r msg n m2 rest hj]
      have e2 : numericVals (msg :: m2 :: rest) = n :: numericVals (m2 :: rest) := by
        simp only [numericVals, hj]
      rw [e1, ih (r + n) m2 hex2, e2]
      simp only [List.length_cons, List.sum_cons, gotIts, List.cons_append, add_assoc]

/-- Claim C4 (amended): script determinism modulo the clock.  Two runs of
the dialog script on the same input sequence always produce the same
sequence of effect kinds; and whenever no input contains "time"
(case-insensitively) — so the wall clock is never consulted — the two runs
produce identical effects, payload texts included. -/
theorem dialog_determinism_modulo_clock (c1 c2 : Nat → String)
    (inputs : List String) :
    ((dialogRun c1 inputs).map Effect.type = (dialogRun c2 inputs).map Effect.type)
    ∧ ((∀ m ∈ inputs, hasTime m = false) → dialogRun c1 inputs = dialogRun c2 inputs) := by
  obtain ⟨h1, h2⟩ := dialogLoopF_clock c1 c2 (inputs.length + 1) 0 inputs
  constructor
  · simp only [dialogRun, List.map_cons]
    rw [h1]
  · intro hno
    simp only [dialogRun]
    rw [h2 hno]

/-- Claim C4 witness: two runs with different ambient clocks on a
time-free input agree exactly. -/
theorem dialog_determinism_modulo_clock_witness :
    dialogRun (fun _ => "00:00:00") ["hello"] = dialogRun (fun _ => "11:11:11") ["hello"] :=
  (dialog_determinism_modulo_clock (fun _ => "00:00:00") (fun _ => "11:11:11")
    ["hello"]).2 (by decide)

/-- Claim C4 counterexample: as stated, determinism over the input
sequence alone fails on the code — the time branch reads the ambient
clock, so the same single input "time" yields different `say` payloads in
two runs made at different instants. -/
theorem dialog_determinism_claim_false :
    dialogRun (fun _ => "00:00:00") ["time"] ≠ dialogRun (fun _ => "11:11:11") ["time"] := by
  decide

/-- Claim C5: the sum scenario.  After the welcome effect and a `listen`,
feeding `"let's sum"`, `"3"`, `"4"`, `"done"` produces exactly the claimed
effect sequence, ending with the outer loop's `listen`; and in general the
reported total is the accumulator plus the sum of the numeric inputs fed
before the first non-numeric input. -/
theorem sum_scenario (c : Nat → String) :
    dialogRun c ["let\x27s sum", "3", "4", "done"]
      = [say "Welcome to \"Do what I say BOT\"", listen,
         say "Okay, what numbers should we sum?", listen,
         say "Got it!", listen, say "Got it!", listen,
         say "The result is: 7", listen]
    ∧ ∀ (r : Int) (msg : String) (ins : List String),
        (∃ m ∈ msg :: ins, jsNumber m = none) →
        (sumBody r msg ins).1
          = gotIts (numericVals (msg :: ins)).length
            ++ [say ("The result is: " ++ toString (r + (numericVals (msg :: ins)).sum))] :=
  ⟨rfl, fun r msg ins hex => sumBody_total ins r msg hex⟩

/-- Claim C5 witness: the total-reported clause at the concrete inputs
`"3"`, `"done"`. -/
theorem sum_scenario_witness :
    (sumBody 0 "3" ["done"]).1
      = gotIts (numericVals ["3", "done"]).length
        ++ [say ("The result is: " ++ toString ((0 : Int) + (numericVals ["3", "done"]).sum))] :=
  (sum_scenario (fun _ => "")).2 0 "3" ["done"] ⟨"done", by decide, by decide⟩

/-- Claim C9: the empty string is numeric for the sum sub-dialogue.
`Number("")` is `0`, not NaN, so feeding `""` does not terminate the loop:
it accumulates `0` (leaving the running total unchanged) and answers with
`say "Got it!"` then `listen`, after which the loop continues on the next
message exactly as it would have without the `""`. -/
theorem sum_empty_string_numeric :
    jsNumber "" = some 0
    ∧ (∀ r : Int, sumBody r "" [] = ([say "Got it!", listen], none))
    ∧ (∀ (r : Int) (m : String) (rest : List String),
        sumBody r "" (m :: rest)
          = (say "Got it!" :: listen :: (sumBody r m rest).1, (sumBody r m rest).2)) := by
  refine ⟨rfl, fun r => rfl, fun r m rest => ?_⟩
  have h : sumBody r "" (m :: rest)
      = (say "Got it!" :: listen :: (sumBody (r + 0) m rest).1,
         (sumBody (r + 0) m rest).2) := rfl
  rw [h, add_zero]

/-- Claim C10: "time" takes precedence over "sum".  For any message that
contains both substrings (case-insensitively), the outer loop takes the
time branch: it emits only the current-time `say` effect and continues the
outer loop, never entering the sum sub-dialogue. -/
theorem time_precedes_sum (clock : Nat → String) (fuel tq : Nat) (m : String)
    (rest : List String) (ht : hasTime m = true) (_hs : hasSum m = true) :
    dialogLoopF clock (fuel + 1) tq (m :: rest)
      = listen :: say ("It is " ++ clock tq) :: dialogLoopF clock fuel (tq + 1) rest := by
  simp [dialogLoopF, ht]

/-- Claim C10 witness: the message "time to sum" contains both substrings
and gets only the time answer. -/
theorem time_precedes_sum_witness :
    dialogLoopF (fun _ => "09:00:00") 1 0 ["time to sum"]
      = listen :: say ("It is " ++ "09:00:00")
        :: dialogLoopF (fun _ => "09:00:00") 0 1 [] :=
  time_precedes_sum (fun _ => "09:00:00") 0 0 "time to sum" [] (by decide) (by decide)

/-! ## Helper lemmas about the driver -/

/-- One interpretation either succeeds without ever recording a failed
send, or aborts: a failed send records exactly the one `sendFailed` event,
and a starved `take()` records nothing. -/
theorem interpret_cases (sendOk : Nat → Bool) (e : Effect) (d : DrvState) :
    (∃ evs d2, interpret sendOk e d = (evs, Except.ok d2)
      ∧ ∀ u, DriverEvent.sendFailed u ∉ evs)
    ∨ interpret sendOk e d
        = ([DriverEvent.sendFailed e.text], Except.error Outcome.sendError)
    ∨ interpret sendOk e d = ([], Except.error Outcome.starved) := by
  by_cases hsay : e.type = "say"
  · by_cases hok : sendOk d.sentCount
    · refine Or.inl ⟨[DriverEvent.sent e.text], { d with sentCount := d.sentCount + 1 },
        by simp [interpret, hsay, hok], fun u => by simp⟩
    · exact Or.inr (Or.inl (by simp [interpret, hsay, hok]))
  · by_cases hlisten : e.type = "listen"
    · cases hc : d.chan with
      | nil => exact Or.inr (Or.inr (by simp [interpret, hsay, hlisten, hc]))
      | cons m rest =>
        refine Or.inl ⟨[DriverEvent.took m], ⟨m, d.sentCount, rest⟩,
          by simp [interpret, hsay, hlisten, hc], fun u => by simp⟩
    · exact Or.inl ⟨[], d, by simp [interpret, hsay, hlisten], fun u => by simp⟩

/-- A run whose outcome is not `sendError` never recorded a failed send. -/
theorem drive_no_fail {σ : Type} (g : σ → String → GenRet σ) (sendOk : Nat → Bool) :
    ∀ (fuel : Nat) (st : σ) (d : DrvState),
      (drive g sendOk fuel st d).2 ≠ Outcome.sendError →
      ∀ t, DriverEvent.sendFailed t ∉ (drive g sendOk fuel st d).1 := by
  intro fuel
  induction fuel with
  | zero =>
    intro st d _ t hmem
    simp [drive] at hmem
  | succ fuel ih =>
    intro st d h t hmem
    rcases hr : g st d.current with ⟨v, done, st2⟩
    cases v with
    | none =>
      rw [show drive g sendOk (fuel + 1) st d = ([], Outcome.completed) from by
        simp [drive, hr]] at hmem
      simp at hmem
    | some e =>
      rcases interpret_cases sendOk e d with ⟨evs, d2, hi, hno⟩ | hi | hi
      · have hd : drive g sendOk (fuel + 1) st d
            = if done then (evs, Outcome.completed)
              else (evs ++ (drive g sendOk fuel st2 d2).1,
                    (drive g sendOk fuel st2 d2).2) := by
          simp [drive, hr, hi]
        cases done with
        | true =>
          rw [hd] at hmem
          simp at hmem
          exact hno t hmem
        | false =>
          rw [hd] at hmem h
          simp at hmem h
          rcases hmem with hm | hm
          · exact hno t hm
          · exact ih st2 d2 h t hm
      · have hd : drive g sendOk (fuel + 1) st d
            = ([DriverEvent.sendFailed e.text], Outcome.sendError) := by
          simp [drive, hr, hi]
        rw [hd] at h
        simp at h
      · have hd : drive g sendOk (fuel + 1) st d = ([], Outcome.starved) := by
          simp [drive, hr, hi]
        rw [hd] at hmem
        simp at hmem

/-- A run whose outcome is `sendError` ends with the one `sendFailed`
event of the send that threw, and recorded no failure before it. -/
theorem drive_fail_last {σ : Type} (g : σ → String → GenRet σ) (sendOk : Nat → Bool) :
    ∀ (fuel : Nat) (st : σ) (d : DrvState),
      (drive g sendOk fuel st d).2 = Outcome.sendError →
      ∃ pre t, (drive g sendOk fuel st d).1 = pre ++ [DriverEvent.sendFailed t]
        ∧ ∀ u, DriverEvent.sendFailed u ∉ pre := by
  intro fuel
  induction fuel with
  | zero =>
    intro st d h
    simp [drive] at h
  | succ fuel ih =>
    intro st d h
    rcases hr : g st d.current with ⟨v, done, st2⟩
    cases v with
    | none =>
      rw [show drive g sendOk (fuel + 1) st d = ([], Outcome.completed) from by
        simp [drive, hr]] at h
      simp at h
    | some e =>
      rcases interpret_cases sendOk e d with ⟨evs, d2, hi, hno⟩ | hi | hi
      · have hd : drive g sendOk (fuel + 1) st d
            = if done then (evs, Outcome.completed)
              else (evs ++ (drive g sendOk fuel st2 d2).1,
                    (drive g sendOk fuel st2 d2).2) := by
          simp [drive, hr, hi]
        cases done with
        | true =>
          rw [hd] at h
          simp at h
        | false =>
          rw [hd] at h
          simp at h
          obtain ⟨pre, t, htr, hnf⟩ := ih st2 d2 h
          refine ⟨evs ++ pre, t, ?_, ?_⟩
          · rw [hd]
            simp only [if_neg, Bool.false_eq_true, if_false]
            rw [htr, List.append_assoc]
          · intro u hu
            rcases List.mem_append.1 hu with h1 | h1
            · exact hno u h1
            · exact hnf u h1
      · have hd : drive g sendOk (fuel + 1) st d
            = ([DriverEvent.sendFailed e.text], Outcome.sendError) := by
          simp [drive, hr, hi]
        rw [hd]
        exact ⟨[], e.text, rfl, fun u => by simp⟩
      · have hd : drive g sendOk (fuel + 1) st d = ([], Outcome.starved) := by
          simp [drive, hr, hi]
        rw [hd] at h
        simp at h

/-- Claim C6: a transport send failure is fatal.  Whenever the driver
records a failed send anywhere in its event history, nothing follows it:
the loop performed no further effect interpretations, no retry of the
failed message, and ended with the `sendError` outcome. -/
theorem driver_send_failure_fatal {σ : Type} (g : σ → String → GenRet σ)
    (sendOk : Nat → Bool) (fuel : Nat) (st : σ) (d : DrvState)
    (pre post : List DriverEvent) (t : String)
    (h : (drive g sendOk fuel st d).1 = pre ++ DriverEvent.sendFailed t :: post) :
    post = [] ∧ (drive g sendOk fuel st d).2 = Outcome.sendError := by
  have hmem : DriverEvent.sendFailed t ∈ (drive g sendOk fuel st d).1 := by
    rw [h]
    simp
  have ho : (drive g sendOk fuel st d).2 = Outcome.sendError := by
    by_contra hne
    exact drive_no_fail g sendOk fuel st d hne t hmem
  obtain ⟨pre2, u, htr, hnf⟩ := drive_fail_last g sendOk fuel st d ho
  refine ⟨?_, ho⟩
  rcases post.eq_nil_or_concat with rfl | ⟨q, last, hq⟩
  · rfl
  · exfalso
    subst hq
    have h2 : (pre ++ DriverEvent.sendFailed t :: q) ++ [last]
        = pre2 ++ [DriverEvent.sendFailed u] := by
      rw [← htr, h, List.concat_eq_append]
      simp
    have h3 := List.append_inj' h2 rfl
    apply hnf t
    rw [← h3.1]
    simp

/-- Claim C6 witness: a script that says "boom" into a transport whose
send throws produces exactly the one failed-send event and the fatal
outcome. -/
theorem driver_send_failure_fatal_witness :
    ([] : List DriverEvent) = []
    ∧ (drive (fun (_ : Unit) (_ : String) => GenRet.mk (some (say "boom")) false ())
        (fun _ => false) 2 () ⟨"", 0, []⟩).2 = Outcome.sendError :=
  driver_send_failure_fatal _ _ 2 () ⟨"", 0, []⟩ [] [] "boom" (by decide)

/-- Claim C7: an unrecognized effect kind is a silent no-op.  If the
script yields an effect whose type is neither "say" nor "listen" (and is
not done), the driver sends nothing, takes nothing from the channel, and
proceeds to the next cycle with the driver state — in particular the
fed-back value `current` — completely unchanged. -/
theorem driver_unknown_effect_noop {σ : Type} (g : σ → String → GenRet σ)
    (sendOk : Nat → Bool) (fuel : Nat) (st st2 : σ) (d : DrvState) (e : Effect)
    (hv : g st d.current = ⟨some e, false, st2⟩)
    (hsay : e.type ≠ "say") (hlisten : e.type ≠ "listen") :
    drive g sendOk (fuel + 1) st d = drive g sendOk fuel st2 d := by
  simp [drive, hv, interpret, hsay, hlisten]

/-- Claim C7 witness: a yielded `{type:"ping"}` effect is skipped and the
loop continues unchanged. -/
theorem driver_unknown_effect_noop_witness :
    drive (fun (_ : Unit) (_ : String) => GenRet.mk (some (Effect.mk "ping" "")) false ())
        (fun _ => true) 1 () ⟨"", 0, []⟩
      = drive (fun (_ : Unit) (_ : String) => GenRet.mk (some (Effect.mk "ping" "")) false ())
        (fun _ => true) 0 () ⟨"", 0, []⟩ :=
  driver_unknown_effect_noop _ _ 0 () () ⟨"", 0, []⟩ (Effect.mk "ping" "")
    rfl (by decide) (by decide)

/-- Claim C8: the final effect is still interpreted.  If an advance
returns an effect together with the completion flag, the driver's whole
remaining run is exactly the interpretation of that effect (its send or
channel take happens) and then the loop exits; the driver exits without
interpreting anything only when the advance produced no effect at all. -/
theorem driver_final_effect_interpreted {σ : Type} (g : σ → String → GenRet σ)
    (sendOk : Nat → Bool) :
    (∀ (fuel : Nat) (st st2 : σ) (d : DrvState) (e : Effect),
      g st d.current = ⟨some e, true, st2⟩ →
      drive g sendOk (fuel + 1) st d
        = ((interpret sendOk e d).1, afterInterp (interpret sendOk e d).2))
    ∧ (∀ (fuel : Nat) (st st2 : σ) (d : DrvState) (done : Bool),
      g st d.current = ⟨none, done, st2⟩ →
      drive g sendOk (fuel + 1) st d = ([], Outcome.completed)) := by
  constructor
  · intro fuel st st2 d e hv
    rcases hi : interpret sendOk e d with ⟨evs, r⟩
    cases r with
    | error o => simp [drive, hv, hi, afterInterp]
    | ok d2 => simp [drive, hv, hi, afterInterp]
  · intro fuel st st2 d done hv
    simp [drive, hv]

/-- Claim C8 witness: a script completing on the same cycle as its last
`say` still gets that `say` interpreted before the loop exits. -/
theorem driver_final_effect_interpreted_witness :
    drive (fun (_ : Unit) (_ : String) => GenRet.mk (some (say "bye")) true ())
        (fun _ => true) 1 () ⟨"", 0, []⟩
      = ((interpret (fun _ => true) (say "bye") ⟨"", 0, []⟩).1,
         afterInterp (interpret (fun _ => true) (say "bye") ⟨"", 0, []⟩).2) :=
  (driver_final_effect_interpreted
      (fun (_ : Unit) (_ : String) => GenRet.mk (some (say "bye")) true ())
      (fun _ => true)).1 0 () () ⟨"", 0, []⟩ (say "bye") rfl
